import Mathlib

/-!
Verification of the ZeroSh job-control shell (`src/rust_zero/zerosh/src/shell.rs`).

The Worker thread's state and message handlers are shallowly embedded:
Rust strings become `List Char`, `BTreeMap`/`HashMap` become association
lists with `List.lookup`, `HashSet<Pid>` becomes a `List Nat` (the source
inserts at most two pids and only ever removes or tests membership, so the
list order is the insertion order), and pids/pgids are `Nat`.

A Rust panic (failed `unwrap`, failed `assert!`, out-of-bounds index) is
modelled by `Option.none` on the transition's result: a handler that
returns `none` aborts the worker thread.  Observable actions other than
state mutation (replies on `shell_tx`, `tcsetpgrp`, `killpg(_, SIGCONT)`,
diagnostics on stderr) are recorded as an ordered `List Effect`.

External nondeterminism is passed in explicitly: the results of `fork` in
`spawn_child` come from a `SpawnOracle`, and the sequence of child-state
events that `waitpid` would report during one `wait_child` reap loop comes
in as a `List WaitEvent` (the terminating `StillAlive`/`ECHILD` is the end
of the list).  File descriptors (the pipe and its cleanup guard) have no
observable effect on the worker state or messages and are not modelled.
-/

namespace ZeroSh

/-- Characters of a Rust string slice. -/
def toChars (s : String) : List Char := s.data

/-- Rust `c == '|'`, the separator predicate of `line.split('|')`. -/
def pipeB (c : Char) : Bool := c == '|'

/-- Rust `char::is_whitespace` restricted to the ASCII whitespace that
`String::trim` / `split_whitespace` see in this shell's input. -/
def wsB (c : Char) : Bool := c.isWhitespace

/-- Splitting on a character predicate, keeping empty pieces: the
semantics of Rust `str::split`. -/
def splitOn (p : Char → Bool) : List Char → List (List Char)
  | [] => [[]]
  | c :: cs =>
    let r := splitOn p cs
    if p c then [] :: r
    else
      match r with
      | [] => [[c]]
      | s :: ss => (c :: s) :: ss

/-- Rust `str::trim`. -/
def trim (s : List Char) : List Char :=
  ((s.dropWhile wsB).reverse.dropWhile wsB).reverse

/-- Rust `str::split_whitespace`: split on whitespace and drop empty pieces. -/
def splitWhitespace (s : List Char) : List (List Char) :=
  (splitOn wsB s).filter (fun t => !t.isEmpty)

/-- One parsed pipeline stage: `(command, options)`.  As in the source's
`parse_cmd`, the options vector does NOT contain the command token
(`cmd_and_options[1..]`). -/
abbrev Stage := List Char × List (List Char)

/-- The loop body of `parse_cmd` over the pieces produced by
`line.split('|')`.  An empty trimmed stage is the parse error
"空のコマンド"; the indexing `cmd_and_options[0]` on a stage whose token
list is empty would panic, which cannot happen because the trimmed stage
is non-empty — the `[]` arm is the corresponding unreachable case. -/
def parse_stages : List (List Char) → Except String (List Stage)
  | [] => Except.ok []
  | piece :: rest =>
    let cmd := trim piece
    if cmd.isEmpty then Except.error "空のコマンド"
    else
      match splitWhitespace cmd with
      | [] => Except.error "空のコマンド"
      | t :: ts =>
        match parse_stages rest with
        | Except.error e => Except.error e
        | Except.ok r => Except.ok ((t, ts) :: r)

/-- `parse_cmd` from the source: split the line on `'|'`, then parse each
stage. -/
def parse_cmd (line : List Char) : Except String (List Stage) :=
  parse_stages (splitOn pipeB line)

/-- `ProcState` from the source. -/
inductive ProcState
  | Run
  | Stop
deriving DecidableEq, Repr

/-- `ProcInfo` from the source. -/
structure ProcInfo where
  state : ProcState
  pgid : Nat
deriving DecidableEq, Repr

/-- Association-list model of the source's `HashMap`/`BTreeMap`. -/
def lookupM (m : List (Nat × α)) (k : Nat) : Option α :=
  List.lookup k m

/-- `HashMap::remove` (the removed value is recovered via `lookupM` where
the source inspects it). -/
def removeM : List (Nat × α) → Nat → List (Nat × α)
  | [], _ => []
  | p :: rest, k => if p.1 == k then removeM rest k else p :: removeM rest k

/-- `HashMap::insert`, overwriting any previous binding. -/
def insertM (m : List (Nat × α)) (k : Nat) (v : α) : List (Nat × α) :=
  (k, v) :: removeM m k

/-- `HashMap::contains_key`. -/
def containsM (m : List (Nat × α)) (k : Nat) : Bool :=
  (lookupM m k).isSome

/-- `ShellMsg` from the source: replies sent to the line reader. -/
inductive ShellMsg
  | Continue (n : Int)
  | Quit (n : Int)
deriving DecidableEq, Repr

/-- The observable actions a worker handler performs besides mutating its
own state, in program order. -/
inductive Effect
  | reply (m : ShellMsg)
  | setFgGroup (pgid : Nat)
  | sigcont (pgid : Nat)
  | eprint (msg : String)
deriving DecidableEq, Repr

/-- `Worker` from the source. -/
structure Worker where
  exit_val : Int
  fg : Option Nat
  jobs : List (Nat × (Nat × List Char))
  pgid_to_pids : List (Nat × (Nat × List Nat))
  pid_to_info : List (Nat × ProcInfo)
  shell_pgid : Nat
deriving DecidableEq, Repr

/-- `usize::MAX` on the 64-bit target. -/
def usizeMax : Nat := 18446744073709551615

/-- The `for i in 0..=usize::MAX` search loop of `get_new_job_id`,
written with the number of remaining iterations as fuel. -/
def find_free_id (jobs : List (Nat × (Nat × List Char))) : Nat → Nat → Option Nat
  | 0, _ => none
  | fuel + 1, i => if containsM jobs i then find_free_id jobs fuel (i + 1) else some i

/-- `Worker::get_new_job_id`: the first `i` in `0..=usize::MAX` that is
not a key of `jobs`, `None` if the whole range is taken. -/
def get_new_job_id (jobs : List (Nat × (Nat × List Char))) : Option Nat :=
  find_free_id jobs (usizeMax + 1) 0

/-- Digit-accumulating loop shared by the integer parsers. -/
def digitsVal : List Char → Nat → Option Nat
  | [], acc => some acc
  | c :: cs, acc =>
    if c.isDigit then digitsVal cs (acc * 10 + (c.toNat - 48)) else none

/-- A non-empty all-digit string, as a `Nat`. -/
def digitsToNat : List Char → Option Nat
  | [] => none
  | c :: cs => digitsVal (c :: cs) 0

/-- Rust `str::parse::<i32>()`. -/
def parse_i32 (s : List Char) : Option Int :=
  match s with
  | '+' :: rest =>
    (digitsToNat rest).bind (fun n => if n ≤ 2147483647 then some (Int.ofNat n) else none)
  | '-' :: rest =>
    (digitsToNat rest).bind (fun n => if n ≤ 2147483648 then some (-(Int.ofNat n)) else none)
  | _ =>
    (digitsToNat s).bind (fun n => if n ≤ 2147483647 then some (Int.ofNat n) else none)

/-- Rust `str::parse::<usize>()`. -/
def parse_usize (s : List Char) : Option Nat :=
  match s with
  | '+' :: rest => (digitsToNat rest).bind (fun n => if n ≤ usizeMax then some n else none)
  | _ => (digitsToNat s).bind (fun n => if n ≤ usizeMax then some n else none)

/-- `Worker::run_exit`.  Note two facts of the source faithfully kept
here: `args` does not contain the command token, yet the code reads
`args.get(1)` (so `exit 5` finds no argument), and the successful send is
`Quit(self.exit_val)`, not the freshly parsed local `exit_val`. -/
def run_exit (w : Worker) (args : List (List Char)) : Worker × List Effect :=
  if !w.jobs.isEmpty then
    let w1 : Worker := { w with exit_val := 1 }
    (w1, [Effect.eprint "ジョブが実行中なので終了できません",
          Effect.reply (ShellMsg.Continue w1.exit_val)])
  else
    match args.get? 1 with
    | some s =>
      match parse_i32 s with
      | some _ =>
        -- the parsed value is bound to an unused local in the source
        (w, [Effect.reply (ShellMsg.Quit w.exit_val)])
      | none =>
        let w1 : Worker := { w with exit_val := 1 }
        (w1, [Effect.eprint (String.mk s ++ "は不正な引数です"),
              Effect.reply (ShellMsg.Continue w1.exit_val)])
    | none => (w, [Effect.reply (ShellMsg.Quit w.exit_val)])

/-- `Worker::run_fg`.  `self.exit_val = 1` is set unconditionally first;
the argument check `args.len() < 2` and the read `args[1]` are kept even
though `args` does not contain the command token. -/
def run_fg (w0 : Worker) (args : List (List Char)) : Worker × List Effect :=
  let w : Worker := { w0 with exit_val := 1 }
  if args.length < 2 then
    (w, [Effect.eprint "usage: fg 数字", Effect.reply (ShellMsg.Continue w.exit_val)])
  else
    match parse_usize (args.getD 1 []) with
    | some n =>
      match lookupM w.jobs n with
      | some (pgid, cmd) =>
        ({ w with fg := some pgid },
         [Effect.eprint (toString n ++ " 再開\t" ++ String.mk cmd),
          Effect.setFgGroup pgid, Effect.sigcont pgid])
      | none =>
        (w, [Effect.eprint (String.mk (args.getD 1 []) ++ "というジョブは見つかりませんでした。"),
             Effect.reply (ShellMsg.Continue w.exit_val)])
    | none =>
      (w, [Effect.eprint (String.mk (args.getD 1 []) ++ "というジョブは見つかりませんでした。"),
           Effect.reply (ShellMsg.Continue w.exit_val)])

/-- `Worker::run_jobs`: a `true // TODO` stub in the source — no output,
no state change, and no reply on `shell_tx`. -/
def run_jobs (w : Worker) : Worker × List Effect := (w, [])

/-- `Worker::run_cd`: likewise a `true // TODO` stub. -/
def run_cd (w : Worker) (_args : List (List Char)) : Worker × List Effect := (w, [])

/-- `Worker::build_in_cmd`: `some` when the source returns `true` (the
command was handled as a built-in), `none` when it returns `false`.  The
`cmd[0]` index is guarded by `parse_cmd` never producing an empty stage
list; the `none` head arm is that unreachable panic. -/
def build_in_cmd (w : Worker) (cmd : List Stage) : Option (Worker × List Effect) :=
  if 1 < cmd.length then none
  else
    match cmd.head? with
    | none => none
    | some (name, args) =>
      if name = toChars "exit" then some (run_exit w args)
      else if name = toChars "jobs" then some (run_jobs w)
      else if name = toChars "fg" then some (run_fg w args)
      else if name = toChars "cd" then some (run_cd w args)
      else none

/-- `Worker::set_pid_state`: set a process's run state, returning the
previous one; `none` and no change if the pid is untracked. -/
def set_pid_state (w : Worker) (pid : Nat) (st : ProcState) : Option ProcState × Worker :=
  match lookupM w.pid_to_info pid with
  | none => (none, w)
  | some info =>
    (some info.state,
     { w with pid_to_info := insertM w.pid_to_info pid { info with state := st } })

/-- `Worker::remove_pid`: drop the pid from its group's pid set and return
`(job id, pgid)`.  As in the source, the `pid_to_info` entry itself is not
removed. -/
def remove_pid (w : Worker) (pid : Nat) : Option (Nat × Nat) × Worker :=
  match lookupM w.pid_to_info pid with
  | none => (none, w)
  | some info =>
    match lookupM w.pgid_to_pids info.pgid with
    | none => (none, w)
    | some (job_id, pids) =>
      (some (job_id, info.pgid),
       { w with pgid_to_pids :=
          insertM w.pgid_to_pids info.pgid (job_id, pids.filter (fun p => !(p == pid))) })

/-- `Worker::remove_job`: remove the job and its process-group entry.  The
source then runs `assert!(!pids.is_empty())` — although its comment says
the group should be empty at this point — so the transition panics
(`none`) precisely when the removed pid set is empty. -/
def remove_job (w : Worker) (job_id : Nat) : Option Worker :=
  match lookupM w.jobs job_id with
  | none => some w
  | some (pgid, _) =>
    let w1 : Worker := { w with jobs := removeM w.jobs job_id }
    match lookupM w1.pgid_to_pids pgid with
    | none => some w1
    | some (_, pids) =>
      let w2 : Worker := { w1 with pgid_to_pids := removeM w1.pgid_to_pids pgid }
      if pids.isEmpty then none else some w2

/-- `Worker::is_group_empty`: `unwrap` panics (`none`) if the pgid is not
a key of `pgid_to_pids`. -/
def is_group_empty (w : Worker) (pgid : Nat) : Option Bool :=
  (lookupM w.pgid_to_pids pgid).map (fun x => x.2.isEmpty)

/-- The iteration of `Worker::is_group_stop` over the group's pids:
`none` is the `unwrap` panic on an untracked pid; otherwise `some false`
at the first running process, `some true` past the end. -/
def group_stop_iter (w : Worker) : List Nat → Option Bool
  | [] => some true
  | pid :: rest =>
    match lookupM w.pid_to_info pid with
    | none => none
    | some info =>
      if info.state = ProcState.Run then some false else group_stop_iter w rest

/-- `Worker::is_group_stop`: the outer `Option` is a panic inside the
iteration, the inner one is the source's own `Option<bool>` (`none` when
the pgid is not a key). -/
def is_group_stop (w : Worker) (pgid : Nat) : Option (Option Bool) :=
  match lookupM w.pgid_to_pids pgid with
  | none => some none
  | some (_, pids) => (group_stop_iter w pids).map some

/-- `Worker::set_shell_fg`: clear `fg`, hand the terminal to the shell's
own process group, and wake the reader with `Continue(exit_val)`. -/
def set_shell_fg (w : Worker) : Worker × List Effect :=
  ({ w with fg := none },
   [Effect.setFgGroup w.shell_pgid, Effect.reply (ShellMsg.Continue w.exit_val)])

/-- `Worker::manage_job`.  Both `jobs.get(&job_id).unwrap()`,
`is_group_empty`'s `unwrap` and `is_group_stop(pgid).unwrap()` can panic
(`none`). -/
def manage_job (w : Worker) (job_id : Nat) (pgid : Nat) : Option (Worker × List Effect) :=
  match lookupM w.jobs job_id with
  | none => none
  | some (_, line) =>
    if w.fg = some pgid then
      match is_group_empty w pgid with
      | none => none
      | some true =>
        match remove_job w job_id with
        | none => none
        | some w1 =>
          let r := set_shell_fg w1
          some (r.1, Effect.eprint ("[" ++ toString job_id ++ "] 終了\t" ++ String.mk line) :: r.2)
      | some false =>
        match is_group_stop w pgid with
        | none => none
        | some none => none
        | some (some true) =>
          let r := set_shell_fg w
          some (r.1, Effect.eprint ("[" ++ toString job_id ++ "] 停止\t" ++ String.mk line) :: r.2)
        | some (some false) => some (w, [])
    else
      match is_group_empty w pgid with
      | none => none
      | some true =>
        match remove_job w job_id with
        | none => none
        | some w1 =>
          some (w1, [Effect.eprint ("[" ++ toString job_id ++ "] 終了\t" ++ String.mk line)])
      | some false => some (w, [])

/-- `Worker::process_term`. -/
def process_term (w : Worker) (pid : Nat) : Option (Worker × List Effect) :=
  match remove_pid w pid with
  | (none, w1) => some (w1, [])
  | (some (job_id, pgid), w1) => manage_job w1 job_id pgid

/-- `Worker::process_stop`: the two `unwrap`s on `pid_to_info` and
`pgid_to_pids` panic (`none`) when the pid (or its group) is untracked. -/
def process_stop (w : Worker) (pid : Nat) : Option (Worker × List Effect) :=
  let w1 := (set_pid_state w pid ProcState.Stop).2
  match lookupM w1.pid_to_info pid with
  | none => none
  | some info =>
    match lookupM w1.pgid_to_pids info.pgid with
    | none => none
    | some (job_id, _) => manage_job w1 job_id info.pgid

/-- `Worker::process_continue`: the `set_pid_state` result is discarded,
so an untracked pid is silently ignored. -/
def process_continue (w : Worker) (pid : Nat) : Worker × List Effect :=
  ((set_pid_state w pid ProcState.Run).2, [])

/-- One `waitpid` report inside the `wait_child` reap loop. -/
inductive WaitEvent
  | exited (pid : Nat) (status : Int)
  | signaled (pid : Nat) (sig : Int) (core : Bool)
  | stopped (pid : Nat)
  | continued (pid : Nat)
deriving DecidableEq, Repr

/-- `Worker::wait_child`: fold the pending kernel reports in order; the
list's end is `StillAlive`/`ECHILD`, which returns from the loop. -/
def wait_child (w : Worker) : List WaitEvent → Option (Worker × List Effect)
  | [] => some (w, [])
  | ev :: rest =>
    let step : Option (Worker × List Effect) :=
      match ev with
      | WaitEvent.exited pid status => process_term { w with exit_val := status } pid
      | WaitEvent.signaled pid sig core =>
        (process_term { w with exit_val := sig + 128 } pid).map
          (fun r => (r.1,
            Effect.eprint ("\nZeroSh: 子プロセスがシグナルにより終了"
              ++ (if core then " (コアダンプ) " else "")
              ++ ": pid = " ++ toString pid ++ ", signal = " ++ toString sig) :: r.2))
      | WaitEvent.stopped pid => process_stop w pid
      | WaitEvent.continued pid => some (process_continue w pid)
    match step with
    | none => none
    | some (w1, effs1) =>
      match wait_child w1 rest with
      | none => none
      | some (w2, effs2) => some (w2, effs1 ++ effs2)

/-- The fork results `spawn_child` would obtain from the OS. -/
structure SpawnOracle where
  fork1 : Except String Nat
  fork2 : Except String Nat

/-- The pid-insertion loop of `Worker::insert_job`: each pid is asserted
fresh (`assert!(!self.pid_to_info.contains_key(&pid))`, panic = `none`),
inserted into `pid_to_info`, and collected into the group's pid set. -/
def insert_pids (w : Worker) : List (Nat × ProcInfo) → Option (Worker × List Nat)
  | [] => some (w, [])
  | (pid, info) :: rest =>
    if containsM w.pid_to_info pid then none
    else
      match insert_pids { w with pid_to_info := insertM w.pid_to_info pid info } rest with
      | none => none
      | some (w1, procs) => some (w1, pid :: procs)

/-- `Worker::insert_job` with its three freshness assertions. -/
def insert_job (w : Worker) (job_id : Nat) (pgid : Nat) (pids : List (Nat × ProcInfo))
    (line : List Char) : Option Worker :=
  if containsM w.jobs job_id then none
  else
    let w1 : Worker := { w with jobs := insertM w.jobs job_id (pgid, line) }
    match insert_pids w1 pids with
    | none => none
    | some (w2, procs) =>
      if containsM w2.pgid_to_pids pgid then none
      else some { w2 with pgid_to_pids := insertM w2.pgid_to_pids pgid (job_id, procs) }

/-- The success tail of `spawn_child`: set `fg`, register the job, hand
the terminal to the new group. -/
def spawn_finish (w : Worker) (job_id : Nat) (pgid : Nat) (pids : List (Nat × ProcInfo))
    (line : List Char) : Option (Bool × Worker × List Effect) :=
  let w1 : Worker := { w with fg := some pgid }
  match insert_job w1 job_id pgid pids line with
  | none => none
  | some w2 => some (true, w2, [Effect.setFgGroup pgid])

/-- `Worker::spawn_child`.  The pipe descriptors and their cleanup guard
have no effect on the worker state or messages and are not modelled; fork
outcomes come from the oracle.  `assert_ne!(cmd.len(), 0)` is the initial
`none`.  The `Bool` is the source's return value (`false` makes the
caller send `Continue`). -/
def spawn_child (w : Worker) (line : List Char) (cmd : List Stage) (orc : SpawnOracle) :
    Option (Bool × Worker × List Effect) :=
  if cmd.isEmpty then none
  else
    match get_new_job_id w.jobs with
    | none => some (false, w, [Effect.eprint "ZeroSh: 管理可能なジョブの最大値に到達"])
    | some job_id =>
      if 2 < cmd.length then
        some (false, w, [Effect.eprint "ZeroSh: 3つ以上のコマンドによるパイプはサポートしていません"])
      else
        match orc.fork1 with
        | Except.error e => some (false, w, [Effect.eprint ("ZeroSh: プロセス生成エラー: " ++ e)])
        | Except.ok pgid =>
          let info : ProcInfo := { state := ProcState.Run, pgid := pgid }
          if cmd.length = 2 then
            match orc.fork2 with
            | Except.error e =>
              -- the stage-1 leader is leaked: nothing was registered
              some (false, w, [Effect.eprint ("ZeroSh: プロセス生成エラー: " ++ e)])
            | Except.ok child =>
              spawn_finish w job_id pgid [(pgid, info), (child, info)] line
          else
            spawn_finish w job_id pgid [(pgid, info)] line

/-- The `WorkerMsg::Cmd` arm of the worker loop. -/
def on_cmd (w : Worker) (line : List Char) (orc : SpawnOracle) :
    Option (Worker × List Effect) :=
  match parse_cmd line with
  | Except.error e =>
    some (w, [Effect.eprint ("ZeroSh: " ++ e), Effect.reply (ShellMsg.Continue w.exit_val)])
  | Except.ok cmd =>
    match build_in_cmd w cmd with
    | some r => some r
    | none =>
      match spawn_child w line cmd orc with
      | none => none
      | some (true, w1, effs) => some (w1, effs)
      | some (false, w1, effs) =>
        some (w1, effs ++ [Effect.reply (ShellMsg.Continue w1.exit_val)])

/-- `WorkerMsg` from the source. -/
inductive WorkerMsg
  | Signal (sig : Int)
  | Cmd (line : List Char)

/-- The worker's top-level dispatch on one message.  The source's match
arm is `WorkerMsg::Signal(SIGCHILD)`: `SIGCHILD` is not a constant in
scope (the imported libc name is `SIGCHLD`), so the pattern binds a fresh
variable and matches EVERY signal number; the following `_ => ()` ignore
arm is unreachable.  The embedding therefore runs `wait_child` for every
`Signal(n)`. -/
def on_msg (w : Worker) (msg : WorkerMsg) (events : List WaitEvent) (orc : SpawnOracle) :
    Option (Worker × List Effect) :=
  match msg with
  | WorkerMsg.Cmd line => on_cmd w line orc
  | WorkerMsg.Signal _ => wait_child w events

/-! Concrete states and inputs used by the claim theorems and witnesses. -/

/-- An oracle for paths that never fork (built-ins, parse errors, signal
handling). -/
def orc0 : SpawnOracle := ⟨Except.error "ENOMEM", Except.error "ENOMEM"⟩

/-- One foreground job `0` in group `100` whose single process `100` is
running. -/
def wC1 : Worker :=
  { exit_val := 0, fg := some 100,
    jobs := [(0, (100, toChars "cmd"))],
    pgid_to_pids := [(100, (0, [100]))],
    pid_to_info := [(100, { state := ProcState.Run, pgid := 100 })],
    shell_pgid := 1 }

/-- A stopped background job `0` in group `100`; the shell is foreground. -/
def wC2 : Worker :=
  { exit_val := 0, fg := none,
    jobs := [(0, (100, toChars "yes"))],
    pgid_to_pids := [(100, (0, [100]))],
    pid_to_info := [(100, { state := ProcState.Stop, pgid := 100 })],
    shell_pgid := 1 }

/-- An idle worker: no jobs, last exit status 0. -/
def wIdle : Worker :=
  { exit_val := 0, fg := none, jobs := [], pgid_to_pids := [], pid_to_info := [],
    shell_pgid := 1 }

/-- An idle worker whose last exit status is 5. -/
def wC5 : Worker :=
  { exit_val := 5, fg := none, jobs := [], pgid_to_pids := [], pid_to_info := [],
    shell_pgid := 1 }

/-- A foreground pipeline job `0` in group `100` with two running
processes `100` and `101`. -/
def wC6 : Worker :=
  { exit_val := 0, fg := some 100,
    jobs := [(0, (100, toChars "a | b"))],
    pgid_to_pids := [(100, (0, [100, 101]))],
    pid_to_info := [(100, { state := ProcState.Run, pgid := 100 }),
                    (101, { state := ProcState.Run, pgid := 100 })],
    shell_pgid := 1 }

/-- A worker with one running job, used to exercise the `exit` refusal. -/
def wC7 : Worker :=
  { exit_val := 0, fg := none,
    jobs := [(0, (100, toChars "yes"))],
    pgid_to_pids := [(100, (0, [100]))],
    pid_to_info := [(100, { state := ProcState.Run, pgid := 100 })],
    shell_pgid := 1 }

/-- A jobs table occupying ids 0 and 1. -/
def jobs8 : List (Nat × (Nat × List Char)) :=
  [(0, (5, toChars "a")), (1, (6, toChars "b"))]

/-- A coherent worker for the `process_stop` precondition claim: pid `100`
is tracked, its group `100` holds pids `100` and `101`, both tracked, and
the group's job `0` is registered. -/
def w10 : Worker :=
  { exit_val := 0, fg := some 100,
    jobs := [(0, (100, toChars "yes"))],
    pgid_to_pids := [(100, (0, [100, 101]))],
    pid_to_info := [(100, { state := ProcState.Run, pgid := 100 }),
                    (101, { state := ProcState.Run, pgid := 100 })],
    shell_pgid := 1 }

/-- A line containing a pipeline stage that is empty after trimming. -/
abbrev hasEmptyStage (line : List Char) : Prop :=
  ∃ s ∈ splitOn pipeB line, trim s = []

/-- Re-serialise one stage: join its tokens with single spaces (the
spec's "joining each stage's command and arguments"). -/
def render_stage : List (List Char) → List Char
  | [] => []
  | [t] => t
  | t :: ts => t ++ ' ' :: render_stage ts

/-- Re-serialise a pipeline: join the stages with the pipe separator
`" | "`, as in the spec's `cmd arg1 arg2 | cmd2` example. -/
def render_line : List (List (List Char)) → List Char
  | [] => []
  | [st] => render_stage st
  | st :: sts => render_stage st ++ ' ' :: '|' :: ' ' :: render_line sts

/-- A valid token: non-empty, no whitespace, no pipe character. -/
abbrev goodTok (t : List Char) : Prop :=
  t ≠ [] ∧ ∀ c ∈ t, wsB c = false ∧ pipeB c = false

/-- A valid stage: a non-empty list of valid tokens. -/
abbrev goodStage (st : List (List Char)) : Prop :=
  st ≠ [] ∧ ∀ t ∈ st, goodTok t

/-- The token structure of the spec's example line `cmd arg1 arg2 | cmd2`. -/
def stages9 : List (List (List Char)) :=
  [[toChars "cmd", toChars "arg1", toChars "arg2"], [toChars "cmd2"]]

/-! Helper lemmas about the association-list maps. -/

/-- Removing key `k` does not change lookups at other keys. -/
theorem lookup_removeM {α : Type} (m : List (Nat × α)) (k k' : Nat) (h : k' ≠ k) :
    lookupM (removeM m k) k' = lookupM m k' := by
  induction m with
  | nil => rfl
  | cons a rest ih =>
    obtain ⟨ka, va⟩ := a
    by_cases hk : ka = k
    · subst hk
      simp only [removeM, beq_self_eq_true, if_true]
      rw [ih]
      simp [lookupM, List.lookup_cons, show (k' == ka) = false by simp [h]]
    · simp only [removeM, show (ka == k) = false by simp [hk], Bool.false_eq_true, if_false]
      by_cases hk' : k' = ka
      · subst hk'; simp [lookupM, List.lookup_cons]
      · simp only [lookupM, List.lookup_cons, show (k' == ka) = false by simp [hk']]
        exact ih

/-- Looking up the freshly inserted key. -/
theorem lookup_insertM_self {α : Type} (m : List (Nat × α)) (k : Nat) (v : α) :
    lookupM (insertM m k v) k = some v := by
  simp [insertM, lookupM, List.lookup_cons]

/-- Inserting at key `k` does not change lookups at other keys. -/
theorem lookup_insertM_ne {α : Type} (m : List (Nat × α)) (k k' : Nat) (v : α) (h : k' ≠ k) :
    lookupM (insertM m k v) k' = lookupM m k' := by
  simp only [insertM, lookupM, List.lookup_cons, show (k' == k) = false by simp [h]]
  exact lookup_removeM m k k' h

/-! Helper lemmas about parsing. -/

/-- A piece list containing a stage that trims to empty makes
`parse_stages` fail. -/
theorem parse_stages_error_of_empty (l : List (List Char))
    (h : ∃ s ∈ l, trim s = []) : ∃ e, parse_stages l = Except.error e := by
  induction l with
  | nil => simp at h
  | cons piece rest ih =>
    by_cases hp : trim piece = []
    · exact ⟨"空のコマンド", by simp [parse_stages, hp]⟩
    · obtain ⟨s, hs, hts⟩ := h
      rcases List.mem_cons.mp hs with hs1 | hs2
      · exact absurd (hs1 ▸ hts) hp
      · have hpe : (trim piece).isEmpty = false := by
          cases he : trim piece with
          | nil => exact absurd he hp
          | cons a l => rfl
        obtain ⟨e, he⟩ := ih ⟨s, hs2, hts⟩
        cases hsw : splitWhitespace (trim piece) with
        | nil => exact ⟨"空のコマンド", by simp [parse_stages, hpe, hsw]⟩
        | cons t ts => exact ⟨e, by simp [parse_stages, hpe, hsw, he]⟩

/-! Claim theorems. -/

/-- Claim C1: the claim says that when the last remaining process of a
tracked job terminates, the SIGCHLD transition removes the job's entry
from `jobs` and the group's entry from `pgid_to_pids` and the worker
continues.  On the code this is FALSE: the removals in `remove_job` are
followed by `assert!(!pids.is_empty())`, which fails exactly because the
pid set has become empty, so the whole transition panics (`none`) and the
worker aborts. -/
theorem C1_last_process_exit_panics :
    on_msg wC1 (WorkerMsg.Signal 17) [WaitEvent.exited 100 0] orc0 = none := by
  rfl

/-- Claim C2: the claim says `Cmd("fg n")` with job `n` present resumes
the job (sets `fg`, transfers the terminal, sends SIGCONT, no reply).  On
the code this is FALSE: `parse_cmd` strips the command token from the
argument vector while `run_fg` still checks `args.len() < 2` and reads
`args[1]`, so `fg 0` with job 0 present takes the usage-error path:
`exit_val := 1`, a usage diagnostic, a `Continue(1)` reply, and `fg` is
left unchanged. -/
theorem C2_fg_usage_error_on_valid_job :
    on_msg wC2 (WorkerMsg.Cmd (toChars "fg 0")) [] orc0 =
      some ({ wC2 with exit_val := 1 },
            [Effect.eprint "usage: fg 数字", Effect.reply (ShellMsg.Continue 1)]) ∧
    ({ wC2 with exit_val := 1 } : Worker).fg = none := by
  exact ⟨rfl, rfl⟩

/-- Claim C3: the claim says `Cmd("exit k")` with no jobs replies
`Quit(k)`.  On the code this is FALSE: `exit 5` replies `Quit(0)` when the
last stored status is 0, because `args.get(1)` misses the argument (the
command token was stripped from `args`), and even when an argument is
found and parsed (`exit 5 7` parses `7`) the reply still sends the old
`self.exit_val` instead of the parsed local.  The zero-argument case
`Quit(exit_val)` does hold. -/
theorem C3_exit_code_argument_ignored :
    on_msg wIdle (WorkerMsg.Cmd (toChars "exit 5")) [] orc0 =
      some (wIdle, [Effect.reply (ShellMsg.Quit 0)]) ∧
    on_msg wIdle (WorkerMsg.Cmd (toChars "exit 5 7")) [] orc0 =
      some (wIdle, [Effect.reply (ShellMsg.Quit 0)]) ∧
    on_msg wIdle (WorkerMsg.Cmd (toChars "exit")) [] orc0 =
      some (wIdle, [Effect.reply (ShellMsg.Quit 0)]) ∧
    (0 : Int) ≠ 5 := by
  exact ⟨rfl, rfl, rfl, by decide⟩

/-- Claim C4: the claim says every `Cmd` gets exactly one reply, and in
particular `jobs` and `cd` reply `Continue`.  On the code this is FALSE:
`run_jobs` and `run_cd` are `true // TODO` stubs that return without
sending anything, so a `Cmd("jobs")` or `Cmd("cd ...")` produces no reply
at all (and no later one can arrive: no job was spawned), deadlocking the
reader. -/
theorem C4_jobs_cd_send_no_reply :
    on_msg wIdle (WorkerMsg.Cmd (toChars "jobs")) [] orc0 = some (wIdle, []) ∧
    on_msg wIdle (WorkerMsg.Cmd (toChars "cd /tmp")) [] orc0 = some (wIdle, []) := by
  exact ⟨rfl, rfl⟩

/-- Claim C5 counterexample: the claim says an empty-stage parse error
sets `exit_val` to 1.  At `exit_val = 5` and input `"ls |"` the code
reports the error and replies `Continue(5)` with the state — including
`exit_val` — completely unchanged, so `exit_val` is not set to 1. -/
theorem C5_counterexample :
    on_msg wC5 (WorkerMsg.Cmd (toChars "ls |")) [] orc0 =
      some (wC5, [Effect.eprint "ZeroSh: 空のコマンド",
                  Effect.reply (ShellMsg.Continue 5)]) ∧
    wC5.exit_val = 5 ∧ (5 : Int) ≠ 1 := by
  exact ⟨rfl, rfl, by decide⟩

/-- Claim C6: the claim says any `Signal(n)` with `n ≠ SIGCHLD` leaves the
worker unchanged and sends no reply.  On the code this is FALSE: the match
pattern `WorkerMsg::Signal(SIGCHILD)` binds a fresh variable (`SIGCHILD`
is not a constant in scope), so every signal — here `SIGINT = 2` — runs
`wait_child`, which reaps the pending `Exited(101, 3)` and mutates the
state (`exit_val := 3`, pid 101 dropped from its group). -/
theorem C6_signal_not_ignored :
    on_msg wC6 (WorkerMsg.Signal 2) [WaitEvent.exited 101 3] orc0 =
      some ({ wC6 with exit_val := 3, pgid_to_pids := [(100, (0, [100]))] }, []) ∧
    ({ wC6 with exit_val := 3, pgid_to_pids := [(100, (0, [100]))] } : Worker) ≠ wC6 := by
  exact ⟨rfl, by decide⟩

/-- Claim C5 (amended): for every input line with an empty pipeline stage
after trimming, parsing fails, the error is reported, and the worker
replies `Continue(exit_val)` with the whole state — in particular
`exit_val` and the job tables — unchanged.  (The original claim's
"exit_val is set to 1" is refuted by `C5_counterexample`.) -/
theorem C5_parse_error_keeps_exit_val (w : Worker) (line : List Char)
    (events : List WaitEvent) (orc : SpawnOracle) (h : hasEmptyStage line) :
    ∃ e, on_msg w (WorkerMsg.Cmd line) events orc =
      some (w, [Effect.eprint ("ZeroSh: " ++ e),
                Effect.reply (ShellMsg.Continue w.exit_val)]) := by
  obtain ⟨e, he⟩ := parse_stages_error_of_empty (splitOn pipeB line) h
  exact ⟨e, by simp [on_msg, on_cmd, parse_cmd, he]⟩

/-- Witness for C5: the amended behaviour at the concrete state
`exit_val = 5` and line `"ls |"`. -/
theorem C5_parse_error_keeps_exit_val_witness :
    ∃ e, on_msg wC5 (WorkerMsg.Cmd (toChars "ls |")) [] orc0 =
      some (wC5, [Effect.eprint ("ZeroSh: " ++ e),
                  Effect.reply (ShellMsg.Continue wC5.exit_val)]) :=
  C5_parse_error_keeps_exit_val wC5 (toChars "ls |") [] orc0 (by decide)

/-- Claim C7: in every worker state with non-empty `jobs`, a `Cmd` whose
line parses to the single built-in stage `exit` (with or without
arguments) prints the explanatory refusal, sets `exit_val := 1`, replies
`Continue(1)`, does not quit, and leaves `jobs`, `pgid_to_pids` and
`pid_to_info` unchanged. -/
theorem C7_exit_refused_with_jobs (w : Worker) (line : List Char)
    (args : List (List Char)) (events : List WaitEvent) (orc : SpawnOracle)
    (hjobs : w.jobs ≠ [])
    (hparse : parse_cmd line = Except.ok [(toChars "exit", args)]) :
    on_msg w (WorkerMsg.Cmd line) events orc =
      some ({ w with exit_val := 1 },
            [Effect.eprint "ジョブが実行中なので終了できません",
             Effect.reply (ShellMsg.Continue 1)]) := by
  have hje : w.jobs.isEmpty = false := by
    cases hw : w.jobs with
    | nil => exact absurd hw hjobs
    | cons a l => rfl
  simp [on_msg, on_cmd, hparse, build_in_cmd, run_exit, hje]

/-- Witness for C7: `exit` refused at the concrete one-job state. -/
theorem C7_exit_refused_with_jobs_witness :
    on_msg wC7 (WorkerMsg.Cmd (toChars "exit")) [] orc0 =
      some ({ wC7 with exit_val := 1 },
            [Effect.eprint "ジョブが実行中なので終了できません",
             Effect.reply (ShellMsg.Continue 1)]) :=
  C7_exit_refused_with_jobs wC7 (toChars "exit") [] [] orc0 (by decide) (by rfl)

/-- Full characterisation of the `for i in 0..=usize::MAX` search. -/
theorem find_free_id_spec (jobs : List (Nat × (Nat × List Char))) :
    ∀ fuel i,
      (∀ k, find_free_id jobs fuel i = some k →
        containsM jobs k = false ∧ i ≤ k ∧
        ∀ j, i ≤ j → j < k → containsM jobs j = true) ∧
      (find_free_id jobs fuel i = none →
        ∀ j, i ≤ j → j < i + fuel → containsM jobs j = true) := by
  intro fuel
  induction fuel with
  | zero =>
    intro i
    refine ⟨?_, ?_⟩
    · intro k h; simp [find_free_id] at h
    · intro _ j h1 h2; omega
  | succ fuel ih =>
    intro i
    refine ⟨?_, ?_⟩
    · intro k h
      cases hc : containsM jobs i with
      | true =>
        rw [find_free_id, if_pos hc] at h
        obtain ⟨h1, h2, h3⟩ := (ih (i + 1)).1 k h
        refine ⟨h1, by omega, ?_⟩
        intro j hj1 hj2
        by_cases hji : j = i
        · exact hji ▸ hc
        · exact h3 j (by omega) hj2
      | false =>
        rw [find_free_id, if_neg (by simp [hc])] at h
        obtain rfl : i = k := Option.some.inj h
        exact ⟨hc, Nat.le_refl i, fun j hj1 hj2 => absurd hj2 (by omega)⟩
    · intro h j h1 h2
      cases hc : containsM jobs i with
      | true =>
        rw [find_free_id, if_pos hc] at h
        by_cases hji : j = i
        · exact hji ▸ hc
        · exact (ih (i + 1)).2 h j (by omega) (by omega)
      | false =>
        rw [find_free_id, if_neg (by simp [hc])] at h
        simp at h

/-- Claim C8: the job id chosen by `get_new_job_id` (called at the start
of `spawn_child`) is the smallest non-negative integer that is not a key
of `jobs`, and allocation returns `None` only when every representable id
(`0..=usize::MAX`) is taken. -/
theorem C8_job_id_smallest_free (jobs : List (Nat × (Nat × List Char))) :
    (∀ k, get_new_job_id jobs = some k →
      containsM jobs k = false ∧ ∀ j, j < k → containsM jobs j = true) ∧
    (get_new_job_id jobs = none → ∀ i, i ≤ usizeMax → containsM jobs i = true) := by
  refine ⟨?_, ?_⟩
  · intro k h
    obtain ⟨h1, _, h3⟩ := (find_free_id_spec jobs (usizeMax + 1) 0).1 k h
    exact ⟨h1, fun j hj => h3 j (Nat.zero_le j) hj⟩
  · intro h i hi
    exact (find_free_id_spec jobs (usizeMax + 1) 0).2 h i (Nat.zero_le i) (by omega)

/-- Witness for C8: with ids 0 and 1 taken, the allocator returns 2, which
is free while 0 and 1 are taken. -/
theorem C8_job_id_smallest_free_witness :
    containsM jobs8 2 = false ∧ containsM jobs8 0 = true ∧ containsM jobs8 1 = true :=
  ⟨((C8_job_id_smallest_free jobs8).1 2 rfl).1,
   ((C8_job_id_smallest_free jobs8).1 2 rfl).2 0 (by decide),
   ((C8_job_id_smallest_free jobs8).1 2 rfl).2 1 (by decide)⟩

/-- The `is_group_stop` iteration cannot panic when every pid of the
group is tracked. -/
theorem group_stop_iter_isSome (w : Worker) (l : List Nat)
    (h : ∀ p ∈ l, (lookupM w.pid_to_info p).isSome = true) :
    (group_stop_iter w l).isSome = true := by
  induction l with
  | nil => rfl
  | cons p rest ih =>
    obtain ⟨info, hinfo⟩ := Option.isSome_iff_exists.mp (h p (List.mem_cons_self p rest))
    rw [group_stop_iter, hinfo]
    by_cases hr : info.state = ProcState.Run
    · simp [hr]
    · simp only [if_neg hr]
      exact ih (fun q hq => h q (List.mem_cons_of_mem p hq))

/-- Claim C10: handling `Stopped(pid)` presupposes that `pid` is tracked.
Part 1: if `pid` is tracked and the tables are coherent around it (its
group is registered, contains it, belongs to a registered job, and all the
group's pids are tracked), none of `process_stop`'s lookups fails — the
transition returns a result.  Part 2: for an untracked pid,
`process_stop`'s `unwrap` panics (the transition is `none`) while
`process_continue` silently ignores the event, leaving the state
unchanged and producing no effect. -/
theorem C10_process_stop_tracked_precondition (w : Worker) (pid : Nat) :
    (∀ info jid pids,
      lookupM w.pid_to_info pid = some info →
      lookupM w.pgid_to_pids info.pgid = some (jid, pids) →
      pid ∈ pids →
      (lookupM w.jobs jid).isSome = true →
      (∀ p ∈ pids, (lookupM w.pid_to_info p).isSome = true) →
      (process_stop w pid).isSome = true) ∧
    (lookupM w.pid_to_info pid = none →
      process_stop w pid = none ∧ process_continue w pid = (w, [])) := by
  refine ⟨?_, ?_⟩
  · intro info jid pids hinfo hpg hmem hjob hall
    obtain ⟨pr, hpr⟩ := Option.isSome_iff_exists.mp hjob
    obtain ⟨pgidJ, lineJ⟩ := pr
    have hstop : (set_pid_state w pid ProcState.Stop).2 =
        { w with pid_to_info :=
            insertM w.pid_to_info pid { info with state := ProcState.Stop } } := by
      simp [set_pid_state, hinfo]
    have h1 : lookupM (insertM w.pid_to_info pid { info with state := ProcState.Stop }) pid =
        some { info with state := ProcState.Stop } := lookup_insertM_self _ _ _
    have hne : pids.isEmpty = false := by
      cases pids with
      | nil => simp at hmem
      | cons a l => rfl
    have hall1 : ∀ p ∈ pids,
        (lookupM (insertM w.pid_to_info pid { info with state := ProcState.Stop }) p).isSome
          = true := by
      intro p hp
      by_cases hppid : p = pid
      · subst hppid; rw [lookup_insertM_self]; rfl
      · rw [lookup_insertM_ne _ _ _ _ hppid]; exact hall p hp
    rw [process_stop, hstop]
    simp only [h1, hpg, hpr]
    obtain ⟨b, hb⟩ := Option.isSome_iff_exists.mp
      (group_stop_iter_isSome
        { w with pid_to_info :=
            insertM w.pid_to_info pid { info with state := ProcState.Stop } } pids hall1)
    by_cases hfg : w.fg = some info.pgid
    · rw [hfg] at hb
      cases b with
      | true => simp [manage_job, hpr, hfg, is_group_empty, hpg, hne, is_group_stop, hb]
      | false => simp [manage_job, hpr, hfg, is_group_empty, hpg, hne, is_group_stop, hb]
    · simp [manage_job, hpr, hfg, is_group_empty, hpg, hne]
  · intro h
    refine ⟨?_, ?_⟩
    · simp [process_stop, set_pid_state, h]
    · simp [process_continue, set_pid_state, h]

/-- Witness for C10: at the coherent two-process state `w10`, stopping the
tracked pid 100 succeeds, while the untracked pid 999 panics
`process_stop` and is ignored by `process_continue`. -/
theorem C10_process_stop_tracked_precondition_witness :
    (process_stop w10 100).isSome = true ∧
    process_stop w10 999 = none ∧ process_continue w10 999 = (w10, []) :=
  ⟨(C10_process_stop_tracked_precondition w10 100).1
      { state := ProcState.Run, pgid := 100 } 0 [100, 101]
      rfl rfl (by decide) rfl (by decide),
   ((C10_process_stop_tracked_precondition w10 999).2 rfl).1,
   ((C10_process_stop_tracked_precondition w10 999).2 rfl).2⟩

/-! Helper lemmas for the parse/serialise round trip. -/

/-- A whitespace character is not the pipe character. -/
theorem ws_not_pipe (c : Char) (h : wsB c = true) : pipeB c = false := by
  by_cases hc : c = '|'
  · subst hc; exact absurd h (by decide)
  · simp [pipeB, hc]

/-- Splitting a separator-free string yields a single piece. -/
theorem splitOn_no_sep (p : Char → Bool) (s : List Char)
    (h : ∀ c ∈ s, p c = false) : splitOn p s = [s] := by
  induction s with
  | nil => rfl
  | cons c cs ih =>
    have hc : p c = false := h c (List.mem_cons_self c cs)
    have ihr : splitOn p cs = [cs] := ih (fun d hd => h d (List.mem_cons_of_mem c hd))
    simp [splitOn, hc, ihr]

/-- Splitting past a first separator preceded by separator-free text. -/
theorem splitOn_append_sep (p : Char → Bool) (xs : List Char) (c : Char) (ys : List Char)
    (hxs : ∀ d ∈ xs, p d = false) (hc : p c = true) :
    splitOn p (xs ++ c :: ys) = xs :: splitOn p ys := by
  induction xs with
  | nil => simp [splitOn, hc]
  | cons x xs' ih =>
    have hx : p x = false := hxs x (List.mem_cons_self x xs')
    have ihr := ih (fun d hd => hxs d (List.mem_cons_of_mem x hd))
    simp [splitOn, hx, ihr]

/-- `dropWhile` eats a prefix on which the predicate holds. -/
theorem dropWhile_all_append (p : Char → Bool) (pre t : List Char)
    (h : ∀ c ∈ pre, p c = true) :
    (pre ++ t).dropWhile p = t.dropWhile p := by
  induction pre with
  | nil => rfl
  | cons c cs ih =>
    have hc : p c = true := h c (List.mem_cons_self c cs)
    simp [List.dropWhile_cons, hc, ih (fun d hd => h d (List.mem_cons_of_mem c hd))]

/-- Trimming whitespace padding around a string whose first and last
characters are not whitespace recovers the string. -/
theorem trim_pad (pre suf s : List Char)
    (hpre : ∀ c ∈ pre, wsB c = true) (hsuf : ∀ c ∈ suf, wsB c = true)
    (c1 : Char) (r1 : List Char) (hs : s = c1 :: r1) (hc1 : wsB c1 = false)
    (c2 : Char) (r2 : List Char) (hrev : s.reverse = c2 :: r2) (hc2 : wsB c2 = false) :
    trim (pre ++ s ++ suf) = s := by
  have e1 : (pre ++ s ++ suf).dropWhile wsB = s ++ suf := by
    rw [List.append_assoc, dropWhile_all_append wsB pre _ hpre, hs]
    simp [List.dropWhile_cons, hc1]
  have e2 : (s ++ suf).reverse.dropWhile wsB = s.reverse := by
    rw [List.reverse_append,
        dropWhile_all_append wsB suf.reverse _
          (fun c hc => hsuf c (List.mem_reverse.mp hc)), hrev]
    simp [List.dropWhile_cons, hc2]
  rw [trim, e1, e2, List.reverse_reverse]

/-- Unfolding equation of `render_stage` for two or more tokens. -/
theorem render_stage_cons (t t' : List Char) (ts : List (List Char)) :
    render_stage (t :: t' :: ts) = t ++ ' ' :: render_stage (t' :: ts) := rfl

/-- Unfolding equation of `render_line` for two or more stages. -/
theorem render_line_cons (st st' : List (List Char)) (sts : List (List (List Char))) :
    render_line (st :: st' :: sts) =
      render_stage st ++ ' ' :: '|' :: ' ' :: render_line (st' :: sts) := rfl

/-- Every character of a rendered stage is a space or a token character. -/
theorem render_stage_chars (st : List (List Char)) (h : ∀ t ∈ st, goodTok t) :
    ∀ c ∈ render_stage st, c = ' ' ∨ (wsB c = false ∧ pipeB c = false) := by
  induction st with
  | nil => simp [render_stage]
  | cons t ts ih =>
    cases ts with
    | nil =>
      intro c hc
      exact Or.inr ((h t (List.mem_cons_self t [])).2 c hc)
    | cons t2 ts2 =>
      intro c hc
      rw [render_stage_cons] at hc
      rcases List.mem_append.mp hc with h1 | h2
      · exact Or.inr ((h t (List.mem_cons_self t (t2 :: ts2))).2 c h1)
      · rcases List.mem_cons.mp h2 with rfl | h3
        · exact Or.inl rfl
        · exact ih (fun t' ht' => h t' (List.mem_cons_of_mem t ht')) c h3

/-- A rendered stage contains no pipe character. -/
theorem render_stage_no_pipe (st : List (List Char)) (h : ∀ t ∈ st, goodTok t) :
    ∀ c ∈ render_stage st, pipeB c = false := by
  intro c hc
  rcases render_stage_chars st h c hc with rfl | ⟨_, h2⟩
  · decide
  · exact h2

/-- A rendered non-empty stage starts with a non-whitespace character. -/
theorem render_stage_shape (st : List (List Char)) (h : ∀ t ∈ st, goodTok t)
    (hne : st ≠ []) :
    ∃ c r, render_stage st = c :: r ∧ wsB c = false := by
  cases st with
  | nil => exact absurd rfl hne
  | cons t ts =>
    have ht := h t (List.mem_cons_self t ts)
    cases t with
    | nil => exact absurd rfl ht.1
    | cons c r =>
      have hcw : wsB c = false := (ht.2 c (List.mem_cons_self c r)).1
      cases ts with
      | nil => exact ⟨c, r, rfl, hcw⟩
      | cons t2 ts2 =>
        exact ⟨c, r ++ ' ' :: render_stage (t2 :: ts2), by rw [render_stage_cons]; rfl, hcw⟩

/-- A rendered non-empty stage ends with a non-whitespace character. -/
theorem render_stage_rev_shape (st : List (List Char)) (h : ∀ t ∈ st, goodTok t)
    (hne : st ≠ []) :
    ∃ c r, (render_stage st).reverse = c :: r ∧ wsB c = false := by
  induction st with
  | nil => exact absurd rfl hne
  | cons t ts ih =>
    cases ts with
    | nil =>
      have ht := h t (List.mem_cons_self t [])
      cases hr : t.reverse with
      | nil => exact absurd (List.reverse_eq_nil_iff.mp hr) ht.1
      | cons c r =>
        have hcm : c ∈ t := List.mem_reverse.mp (hr ▸ List.mem_cons_self c r)
        exact ⟨c, r, by rw [render_stage]; exact hr, (ht.2 c hcm).1⟩
    | cons t2 ts2 =>
      obtain ⟨c, r, hcr, hcw⟩ :=
        ih (fun t' ht' => h t' (List.mem_cons_of_mem t ht')) (by simp)
      refine ⟨c, r ++ ' ' :: t.reverse, ?_, hcw⟩
      rw [render_stage_cons, List.reverse_append, List.reverse_cons, hcr]
      simp

/-- Splitting a rendered stage on whitespace recovers its tokens. -/
theorem splitWhitespace_render (st : List (List Char)) (h : ∀ t ∈ st, goodTok t)
    (hne : st ≠ []) : splitWhitespace (render_stage st) = st := by
  induction st with
  | nil => exact absurd rfl hne
  | cons t ts ih =>
    have ht := h t (List.mem_cons_self t ts)
    have htw : ∀ c ∈ t, wsB c = false := fun c hc => (ht.2 c hc).1
    have hte : (!t.isEmpty) = true := by
      cases t with
      | nil => exact absurd rfl ht.1
      | cons a l => rfl
    cases ts with
    | nil =>
      rw [show render_stage [t] = t from rfl, splitWhitespace, splitOn_no_sep wsB t htw]
      simp [List.filter_cons, hte]
    | cons t2 ts2 =>
      have ihe := ih (fun t' ht' => h t' (List.mem_cons_of_mem t ht')) (by simp)
      rw [render_stage_cons, splitWhitespace,
          splitOn_append_sep wsB t ' ' (render_stage (t2 :: ts2)) htw (by decide),
          List.filter_cons]
      rw [splitWhitespace] at ihe
      simp only [hte, if_true, ihe]

/-- Unfolding `parse_stages` on a piece that trims to a non-empty stage. -/
theorem parse_stages_cons (piece : List Char) (pieces : List (List Char))
    (t : List Char) (ts : List (List Char))
    (hsw : splitWhitespace (trim piece) = t :: ts) (hne : trim piece ≠ []) :
    parse_stages (piece :: pieces) =
      match parse_stages pieces with
      | Except.error e => Except.error e
      | Except.ok r => Except.ok ((t, ts) :: r) := by
  have he : (trim piece).isEmpty = false := by
    cases h : trim piece with
    | nil => exact absurd h hne
    | cons a l => rfl
  simp [parse_stages, he, hsw]

/-- Parsing a whitespace-padded rendered pipeline yields exactly its
stage structure. -/
theorem parse_render_aux (stages : List (List (List Char))) :
    (∀ st ∈ stages, goodStage st) → stages ≠ [] →
    ∀ pad : List Char, (∀ c ∈ pad, wsB c = true) →
      parse_stages (splitOn pipeB (pad ++ render_line stages)) =
        Except.ok (stages.map (fun st => (st.headD [], st.tail))) := by
  induction stages with
  | nil => intro _ h; exact absurd rfl h
  | cons st rest ih =>
    intro hgood _ pad hpad
    have hst : goodStage st := hgood st (List.mem_cons_self st rest)
    have htoks : ∀ t ∈ st, goodTok t := hst.2
    obtain ⟨c1, r1, hsh, hc1⟩ := render_stage_shape st htoks hst.1
    obtain ⟨c2, r2, hrv, hc2⟩ := render_stage_rev_shape st htoks hst.1
    have hpadnp : ∀ c ∈ pad, pipeB c = false := fun c hc => ws_not_pipe c (hpad c hc)
    have hrsnp : ∀ c ∈ render_stage st, pipeB c = false := render_stage_no_pipe st htoks
    have hne2 : (render_stage st).isEmpty = false := by rw [hsh]; rfl
    have hsw : splitWhitespace (render_stage st) = st := splitWhitespace_render st htoks hst.1
    cases rest with
    | nil =>
      rw [show render_line [st] = render_stage st from rfl,
          splitOn_no_sep pipeB _ (by
            intro c hc
            rcases List.mem_append.mp hc with h1 | h2
            · exact hpadnp c h1
            · exact hrsnp c h2)]
      have htr : trim (pad ++ render_stage st) = render_stage st := by
        have := trim_pad pad [] (render_stage st) hpad (by simp)
          c1 r1 hsh hc1 c2 r2 hrv hc2
        simpa using this
      obtain ⟨t0, ts0, hstc⟩ : ∃ t0 ts0, st = t0 :: ts0 := by
        cases st with
        | nil => exact absurd rfl hst.1
        | cons a l => exact ⟨a, l, rfl⟩
      have hswp : splitWhitespace (trim (pad ++ render_stage st)) = t0 :: ts0 := by
        rw [htr, hsw]; exact hstc
      have hnee : trim (pad ++ render_stage st) ≠ [] := by rw [htr, hsh]; simp
      rw [parse_stages_cons _ _ t0 ts0 hswp hnee, hstc]
      rfl
    | cons st2 rest2 =>
      have hline : pad ++ render_line (st :: st2 :: rest2) =
          (pad ++ render_stage st ++ [' ']) ++ '|' :: (' ' :: render_line (st2 :: rest2)) := by
        rw [render_line_cons]
        simp
      rw [hline,
          splitOn_append_sep pipeB _ '|' _ (by
            intro c hc
            rcases List.mem_append.mp hc with h12 | h3
            · rcases List.mem_append.mp h12 with h1 | h2
              · exact hpadnp c h1
              · exact hrsnp c h2
            · rcases List.mem_cons.mp h3 with rfl | hx
              · decide
              · simp at hx) (by decide)]
      have htr : trim (pad ++ render_stage st ++ [' ']) = render_stage st :=
        trim_pad pad [' '] (render_stage st) hpad (by decide)
          c1 r1 hsh hc1 c2 r2 hrv hc2
      have ihr := ih (fun s hs => hgood s (List.mem_cons_of_mem st hs)) (by simp)
        [' '] (by decide)
      rw [List.singleton_append] at ihr
      obtain ⟨t0, ts0, hstc⟩ : ∃ t0 ts0, st = t0 :: ts0 := by
        cases st with
        | nil => exact absurd rfl hst.1
        | cons a l => exact ⟨a, l, rfl⟩
      have hswp : splitWhitespace (trim (pad ++ render_stage st ++ [' '])) = t0 :: ts0 := by
        rw [htr, hsw]; exact hstc
      have hnee : trim (pad ++ render_stage st ++ [' ']) ≠ [] := by rw [htr, hsh]; simp
      rw [parse_stages_cons _ _ t0 ts0 hswp hnee, ihr, hstc]
      rfl

/-- Claim C9: parsing a serialised valid pipeline (non-empty stages of
non-empty whitespace- and pipe-free tokens, joined with spaces and
`" | "`) succeeds with exactly that stage structure, and re-serialising
stage by stage recovers the original token sequence. -/
theorem C9_parse_serialize_roundtrip (stages : List (List (List Char)))
    (hne : stages ≠ []) (hgood : ∀ st ∈ stages, goodStage st) :
    parse_cmd (render_line stages) =
      Except.ok (stages.map (fun st => (st.headD [], st.tail))) ∧
    (stages.map (fun st => (st.headD [], st.tail))).map (fun p => p.1 :: p.2) = stages := by
  constructor
  · have := parse_render_aux stages hgood hne [] (by simp)
    simpa [parse_cmd] using this
  · rw [List.map_map]
    have hid : ∀ st ∈ stages,
        ((fun p : List Char × List (List Char) => p.1 :: p.2) ∘
          (fun st => (st.headD [], st.tail))) st = id st := by
      intro st hst
      cases hstc : st with
      | nil => exact absurd hstc (hgood st hst).1
      | cons t ts => rfl
    rw [List.map_congr_left hid, List.map_id]

/-- Witness for C9: the spec's own example `cmd arg1 arg2 | cmd2`. -/
theorem C9_parse_serialize_roundtrip_witness :
    parse_cmd (render_line stages9) =
      Except.ok (stages9.map (fun st => (st.headD [], st.tail))) ∧
    (stages9.map (fun st => (st.headD [], st.tail))).map (fun p => p.1 :: p.2) = stages9 :=
  C9_parse_serialize_roundtrip stages9 (by decide) (by decide)

end ZeroSh
